import Mathlib

/-!
# Verification of `altair/sphinxext/altairgallery.py`

A shallow embedding of the gallery extension's core logic:

* `save_example_pngs` — the image-cache loop (hash lookup, conditional
  regeneration, thumbnail creation, hash-file persistence), modelled as a
  fold over an explicit state (hash table, set of existing files, event log).
* `populate_examples` — sorting the examples by name and extracting
  docstring / category / code (the extraction helper
  `get_docstring_and_rest` lives in `sphinxext/utils.py`, which is not part
  of the sources here, so it is an abstract parameter).
* The Jinja `groupby('category')` filter used by the gallery index template,
  and the previous/next navigation assignment from `main`.

External collaborators are abstracted exactly where the Python code calls
out of the repository: `hashlib.md5` becomes an arbitrary digest function
`md5 : String → String`, chart execution and saving (`exec` /
`chart.savechart`) becomes a `saveChart` event, `create_thumbnail` becomes a
`makeThumb` event, and `print` becomes `printUsingCached` / `printSaving`
events.  Directory creation (`os.makedirs`) is not modelled: it affects no
claim.  The untyped Python example dict becomes the `Example` structure.
-/

namespace AltairGallery

/-- An example record as used by `save_example_pngs` and the templates:
the keys the Python dict carries after `populate_examples` ran
(`name`, `docstring`, `category`, `code`, `lineno`, and the optional
`galleryParameters`, whose absence is modelled by the empty list). -/
structure Example where
  name : String
  docstring : String
  category : String
  code : String
  lineno : Nat
  galleryParameters : List (String × String)
deriving DecidableEq, Repr

/-- Observable I/O actions of `save_example_pngs`, in program order:
reading the hash-cache file, the two `print` calls, writing an image via
`chart.savechart`, dumping the hash table to the hash-cache file, and
creating a thumbnail. -/
inductive Event where
  | readHashFile (hashes : List (String × String))
  | printUsingCached (path : String)
  | printSaving (path : String)
  | saveChart (path : String)
  | writeHashFile (hashes : List (String × String))
  | makeThumb (src : String) (dst : String) (params : List (String × String))
deriving DecidableEq, Repr

/-- The Python dict `hashes`, as an insertion-ordered association list. -/
def Hashes := List (String × String)

/-- `hashes.get(filename, '')` — lookup with default empty string. -/
def hashesGet (hashes : List (String × String)) (k : String) : String :=
  match hashes with
  | [] => ""
  | (k', v) :: rest => if k' = k then v else hashesGet rest k

/-- `hashes[filename] = h` — Python dict assignment: an existing key keeps
its position, a new key is appended. -/
def hashesSet (hashes : List (String × String)) (k v : String) :
    List (String × String) :=
  match hashes with
  | [] => [(k, v)]
  | (k', v') :: rest =>
      if k' = k then (k, v) :: rest else (k', v') :: hashesSet rest k v

/-- The set of files existing on disk, as a duplicate-free list of paths.
Writing a file that already exists leaves the list unchanged. -/
def addFile (files : List String) (f : String) : List String :=
  if f ∈ files then files else files ++ [f]

/-- `os.path.join(image_dir, example['name'] + '.png')`. -/
def imagePath (imageDir name : String) : String :=
  imageDir ++ "/" ++ (name ++ ".png")

/-- `os.path.join(image_dir, example['name'] + '-thumb.png')`. -/
def thumbPath (imageDir name : String) : String :=
  imageDir ++ "/" ++ (name ++ "-thumb.png")

/-- State threaded through the `for example in examples` loop:
the in-memory `hashes` dict, the files existing on disk, and the log of
observable actions so far. -/
structure SaveState where
  hashes : List (String × String)
  files : List String
  events : List Event
deriving DecidableEq, Repr

/-- Line 110 of `altairgallery.py`:
`if not hashes_match or not os.path.exists(image_file)` — the decision to
regenerate, where `hashes_match = (hashes.get(filename, '') == example_hash)`
and `example_hash = hashlib.md5(example['code'].encode()).hexdigest()`. -/
def regenerates (md5 : String → String) (imageDir : String)
    (hashes : List (String × String)) (files : List String)
    (ex : Example) : Bool :=
  let filename := ex.name ++ ".png"
  let image_file := imagePath imageDir ex.name
  let example_hash := md5 ex.code
  let hashes_match := hashesGet hashes filename == example_hash
  !hashes_match || !(files.contains image_file)

/-- One iteration of the `for example in examples` loop of
`save_example_pngs` (lines 102–125): print the "using cached" message,
regenerate the image and rewrite the hash file when `regenerates` holds,
then unconditionally create the thumbnail when requested. -/
def processExample (md5 : String → String) (imageDir : String)
    (makeThumbnails : Bool) (st : SaveState) (ex : Example) : SaveState :=
  let filename := ex.name ++ ".png"
  let image_file := imagePath imageDir ex.name
  let example_hash := md5 ex.code
  let st1 : SaveState :=
    { st with events := st.events ++ [Event.printUsingCached image_file] }
  let st2 : SaveState :=
    if regenerates md5 imageDir st.hashes st.files ex then
      let newHashes := hashesSet st1.hashes filename example_hash
      { hashes := newHashes,
        files := addFile st1.files image_file,
        events := st1.events ++
          [Event.printSaving image_file, Event.saveChart image_file,
           Event.writeHashFile newHashes] }
    else st1
  if makeThumbnails then
    let thumb_file := thumbPath imageDir ex.name
    { st2 with
      files := addFile st2.files thumb_file,
      events := st2.events ++
        [Event.makeThumb image_file thumb_file ex.galleryParameters] }
  else st2

/-- The state of `_image_hashes.json` on disk before the run:
absent, present but unparseable, or present with a parsed hash table. -/
inductive HashFileState where
  | missing
  | corrupt
  | valid (hashes : List (String × String))
deriving DecidableEq, Repr

/-- Lines 96–100: `if os.path.exists(hash_file): hashes = json.load(f)
else: hashes = {}`.  A missing file yields the empty dict; a present but
unparseable file makes `json.load` raise (nothing catches it). -/
def loadHashes : HashFileState →
    Except String (List (String × String) × List Event)
  | HashFileState.missing => Except.ok ([], [])
  | HashFileState.corrupt => Except.error "json.decoder.JSONDecodeError"
  | HashFileState.valid h => Except.ok (h, [Event.readHashFile h])

/-- `save_example_pngs(examples, image_dir, make_thumbnails=True)`
(lines 88–129): load the hash file, run the per-example loop, then dump the
hash table once more at the end. -/
def save_example_pngs (md5 : String → String) (examples : List Example)
    (imageDir : String) (hashFile : HashFileState) (initFiles : List String)
    (makeThumbnails : Bool := true) : Except String SaveState :=
  match loadHashes hashFile with
  | Except.error e => Except.error e
  | Except.ok (h0, evs) =>
      let st0 : SaveState := { hashes := h0, files := initFiles, events := evs }
      let st := examples.foldl (processExample md5 imageDir makeThumbnails) st0
      Except.ok { st with events := st.events ++ [Event.writeHashFile st.hashes] }

/-! ## Python string comparison

Python compares strings lexicographically by code point.  (Lean's own
`String.lt` agrees but is defined by well-founded recursion on iterators,
which blocks kernel evaluation, so the comparison is spelled out here by
structural recursion on the character lists.) -/

/-- Lexicographic strict order on character lists, by code point. -/
def pyStrLtAux : List Char → List Char → Bool
  | [], [] => false
  | [], _ :: _ => true
  | _ :: _, [] => false
  | a :: as, b :: bs =>
      if a < b then true
      else if b < a then false
      else pyStrLtAux as bs

/-- Python's `a < b` on strings. -/
def pyLt (a b : String) : Bool := pyStrLtAux a.data b.data

/-- Python's `a <= b` on strings (total order: `a <= b ↔ ¬ b < a`). -/
def pyLe (a b : String) : Bool := !(pyStrLtAux b.data a.data)

/-! ## `populate_examples` (lines 132–148) -/

/-- Python's `str.title()` on a character list: an alphabetic character is
upper-cased when the previous character was not alphabetic and lower-cased
otherwise; other characters pass through. -/
def pyTitleAux : List Char → Bool → List Char
  | [], _ => []
  | c :: cs, prevAlpha =>
      (if c.isAlpha then (if prevAlpha then c.toLower else c.toUpper) else c)
        :: pyTitleAux cs c.isAlpha

/-- Python's `str.title()` (used on line 145 as `category.title()`). -/
def pyTitle (s : String) : String :=
  String.mk (pyTitleAux s.data false)

/-- An entry yielded by `iter_examples` (external module
`altair.vegalite.v2.examples`): a name, a source filename, and the optional
gallery parameters carried along in the dict. -/
structure RawExample where
  name : String
  filename : String
  galleryParameters : List (String × String)
deriving DecidableEq, Repr

/-- Modelled from the spec: the result of `get_docstring_and_rest(filename)`
from `sphinxext/utils.py`, which is not among the sources here.  Per the
spec it extracts "docstring, category (defaulted to 'general' if absent,
title-cased), code body" and a source line number, so it returns a
docstring, an optional category, the code, and the line number. -/
structure ParsedSource where
  docstring : String
  category : Option String
  code : String
  lineno : Nat
deriving DecidableEq, Repr

/-- The per-example body of the loop in `populate_examples` (lines 137–146):
parse the source file, default a `None` category to `'general'`, title-case
it, and build the enriched example record. -/
def mkExample (parse : String → ParsedSource) (r : RawExample) : Example :=
  let p := parse r.filename
  let category := p.category.getD "general"
  { name := r.name,
    docstring := p.docstring,
    category := pyTitle category,
    code := p.code,
    lineno := p.lineno,
    galleryParameters := r.galleryParameters }

/-- `populate_examples` (lines 132–148): sort the raw examples by name with
Python's stable `sorted` (insertion sort is stable), then enrich each.
`get_docstring_and_rest` is abstract (`parse`). -/
def populate_examples (parse : String → ParsedSource)
    (raw : List RawExample) : List Example :=
  (List.insertionSort (fun a b => pyLe a.name b.name = true) raw).map
    (mkExample parse)

/-! ## The gallery index template's `groupby('category')` filter

`GALLERY_TEMPLATE` iterates `{% for group in examples|groupby('category') %}`.
Jinja's `groupby` filter sorts the sequence by the attribute and then groups
adjacent items with equal attribute values, like Python's
`itertools.groupby(sorted(seq, key=...), key=...)`. -/

/-- Group maximal runs of adjacent examples with equal category
(`itertools.groupby` keyed on the category). -/
def groupAdj : List Example → List (String × List Example)
  | [] => []
  | x :: xs =>
      match groupAdj xs with
      | [] => [(x.category, [x])]
      | (c, g) :: rest =>
          if x.category = c then (c, x :: g) :: rest
          else (x.category, [x]) :: (c, g) :: rest

/-- Jinja's `examples|groupby('category')`: a stable sort by the category
attribute followed by adjacent grouping. -/
def jinja_groupby (xs : List Example) : List (String × List Example) :=
  groupAdj (List.insertionSort (fun a b => pyLe a.category b.category = true) xs)

/-- The order of categories described by the spec's words: categories in
the order of the first example of each category in the example sequence.
Stated from the spec for comparison with `jinja_groupby`. -/
def firstSeenCategories : List Example → List String
  | [] => []
  | x :: xs =>
      let rest := firstSeenCategories xs
      x.category :: rest.filter (fun c => c ≠ x.category)

/-! ## `main`'s per-example page loop (lines 177–184) -/

/-- Modelled from the spec: `prev_this_next` from `sphinxext/utils.py` is
not among the sources here.  Per the spec it pairs each entry of the
sequence with its neighbours: the previous entry (none for the first) and
the next entry (none for the last). -/
def prev_this_next (xs : List α) : List (Option α × α × Option α) :=
  (none :: xs.map some).zip (xs.zip (xs.tail.map some ++ [none]))

/-- The loop `for prev_ex, example, next_ex in prev_this_next(examples)`
(lines 177–181): each example receives `prev_ref`/`next_ref` set to
`"gallery_{name}"` of its neighbour when that neighbour exists. -/
def assignRefs (examples : List Example) :
    List (Example × Option String × Option String) :=
  (prev_this_next examples).map (fun t =>
    (t.2.1,
     t.1.map (fun p => "gallery_" ++ p.name),
     t.2.2.map (fun n => "gallery_" ++ n.name)))

/-! ## Order facts about the string comparison -/

lemma pyStrLtAux_irrefl : ∀ l, pyStrLtAux l l = false
  | [] => rfl
  | a :: as => by simp [pyStrLtAux, pyStrLtAux_irrefl as]

lemma pyStrLtAux_asymm : ∀ l m, pyStrLtAux l m = true → pyStrLtAux m l = false
  | [], [] => by simp [pyStrLtAux]
  | [], _ :: _ => fun _ => rfl
  | _ :: _, [] => by simp [pyStrLtAux]
  | a :: as, b :: bs => by
      rcases lt_trichotomy a b with h | h | h
      · intro _; simp [pyStrLtAux, h, lt_asymm h]
      · subst h
        intro hlt
        simp only [pyStrLtAux, lt_irrefl, if_false] at hlt ⊢
        exact pyStrLtAux_asymm as bs hlt
      · intro hlt; simp [pyStrLtAux, h, lt_asymm h] at hlt

lemma pyStrLtAux_trans :
    ∀ l m n, pyStrLtAux l m = true → pyStrLtAux m n = true →
      pyStrLtAux l n = true
  | [], [], _ => by simp [pyStrLtAux]
  | [], _ :: _, [] => by intro _ h; simp [pyStrLtAux] at h
  | [], _ :: _, _ :: _ => fun _ _ => rfl
  | _ :: _, [], _ => by simp [pyStrLtAux]
  | _ :: _, _ :: _, [] => by intro _ h; simp [pyStrLtAux] at h
  | a :: as, b :: bs, c :: cs => by
      intro h1 h2
      rcases lt_trichotomy a b with hab | hab | hab
      · rcases lt_trichotomy b c with hbc | hbc | hbc
        · simp [pyStrLtAux, lt_trans hab hbc]
        · subst hbc; simp [pyStrLtAux, hab]
        · simp [pyStrLtAux, hbc, lt_asymm hbc] at h2
      · subst hab
        rcases lt_trichotomy a c with hac | hac | hac
        · simp [pyStrLtAux, hac]
        · subst hac
          simp only [pyStrLtAux, lt_irrefl, if_false] at h1 h2 ⊢
          exact pyStrLtAux_trans as bs cs h1 h2
        · simp [pyStrLtAux, hac, lt_asymm hac] at h2
      · simp [pyStrLtAux, hab, lt_asymm hab] at h1

lemma pyStrLtAux_eq_of_not_lt :
    ∀ l m, pyStrLtAux l m = false → pyStrLtAux m l = false → l = m
  | [], [] => fun _ _ => rfl
  | [], _ :: _ => by intro h _; simp [pyStrLtAux] at h
  | _ :: _, [] => by intro _ h; simp [pyStrLtAux] at h
  | a :: as, b :: bs => by
      intro h1 h2
      rcases lt_trichotomy a b with hab | hab | hab
      · simp [pyStrLtAux, hab] at h1
      · subst hab
        simp only [pyStrLtAux, lt_irrefl, if_false] at h1 h2
        exact congrArg (List.cons a) (pyStrLtAux_eq_of_not_lt as bs h1 h2)
      · simp [pyStrLtAux, hab, lt_asymm hab] at h2

lemma string_eq_of_data_eq {s t : String} (h : s.data = t.data) : s = t := by
  cases s; cases t; exact congrArg String.mk h

lemma pyLe_total (a b : String) : pyLe a b = true ∨ pyLe b a = true := by
  unfold pyLe
  cases hba : pyStrLtAux b.data a.data with
  | false => exact Or.inl rfl
  | true => exact Or.inr (by simp [pyStrLtAux_asymm _ _ hba])

lemma pyLe_trans {a b c : String} (h1 : pyLe a b = true)
    (h2 : pyLe b c = true) : pyLe a c = true := by
  unfold pyLe at h1 h2 ⊢
  simp only [Bool.not_eq_true', Bool.not_eq_false] at h1 h2 ⊢
  cases hca : pyStrLtAux c.data a.data with
  | false => rfl
  | true =>
      exfalso
      cases hab : pyStrLtAux a.data b.data with
      | true =>
          have := pyStrLtAux_trans _ _ _ hca hab
          simp [this] at h2
      | false =>
          have heq := pyStrLtAux_eq_of_not_lt _ _ hab h1
          rw [heq] at hca
          simp [hca] at h2

lemma pyLt_of_pyLe_of_ne {a b : String} (h : pyLe a b = true) (hne : a ≠ b) :
    pyLt a b = true := by
  unfold pyLe at h
  unfold pyLt
  simp only [Bool.not_eq_true'] at h
  cases hab : pyStrLtAux a.data b.data with
  | true => rfl
  | false =>
      exact absurd (string_eq_of_data_eq (pyStrLtAux_eq_of_not_lt _ _ hab h))
        hne

instance : IsTotal Example (fun a b => pyLe a.name b.name = true) :=
  ⟨fun a b => pyLe_total a.name b.name⟩

instance : IsTrans Example (fun a b => pyLe a.name b.name = true) :=
  ⟨fun _ _ _ => pyLe_trans⟩

instance : IsTotal Example (fun a b => pyLe a.category b.category = true) :=
  ⟨fun a b => pyLe_total a.category b.category⟩

instance : IsTrans Example (fun a b => pyLe a.category b.category = true) :=
  ⟨fun _ _ _ => pyLe_trans⟩

/-! ## Dictionary lemmas -/

lemma hashesGet_set_self (h : List (String × String)) (k v : String) :
    hashesGet (hashesSet h k v) k = v := by
  induction h with
  | nil => simp [hashesSet, hashesGet]
  | cons p rest ih =>
      by_cases hk : p.1 = k
      · simp [hashesSet, hashesGet, hk]
      · simp [hashesSet, hashesGet, hk, ih]

lemma hashesGet_set_ne (h : List (String × String)) {k k' : String}
    (v : String) (hne : k' ≠ k) :
    hashesGet (hashesSet h k v) k' = hashesGet h k' := by
  have hkk : k ≠ k' := fun hh => hne hh.symm
  induction h with
  | nil => simp [hashesSet, hashesGet, hkk]
  | cons p rest ih =>
      by_cases hk : p.1 = k
      · subst hk
        simp [hashesSet, hashesGet, hkk]
      · simp [hashesSet, hashesGet, hk, ih]

/-! ## Characterization of one loop iteration -/

/-- The events `processExample` appends, and nothing else: the unconditional
"using cached" print, the regeneration block when `regenerates` holds, and
the thumbnail creation when requested. -/
lemma processExample_events (md5 : String → String) (imageDir : String)
    (mk : Bool) (st : SaveState) (ex : Example) :
    (processExample md5 imageDir mk st ex).events =
      st.events ++ [Event.printUsingCached (imagePath imageDir ex.name)] ++
      (if regenerates md5 imageDir st.hashes st.files ex then
        [Event.printSaving (imagePath imageDir ex.name),
         Event.saveChart (imagePath imageDir ex.name),
         Event.writeHashFile
           (hashesSet st.hashes (ex.name ++ ".png") (md5 ex.code))]
       else []) ++
      (if mk then
        [Event.makeThumb (imagePath imageDir ex.name)
          (thumbPath imageDir ex.name) ex.galleryParameters]
       else []) := by
  by_cases hr : regenerates md5 imageDir st.hashes st.files ex <;>
    by_cases hmk : mk <;>
      simp [processExample, hr, hmk]

lemma processExample_hashes (md5 : String → String) (imageDir : String)
    (mk : Bool) (st : SaveState) (ex : Example) :
    (processExample md5 imageDir mk st ex).hashes =
      if regenerates md5 imageDir st.hashes st.files ex then
        hashesSet st.hashes (ex.name ++ ".png") (md5 ex.code)
      else st.hashes := by
  by_cases hr : regenerates md5 imageDir st.hashes st.files ex <;>
    by_cases hmk : mk <;>
      simp [processExample, hr, hmk]

/-- Line 110 unfolded: regeneration is skipped exactly when the stored hash
matches the digest of the code and the image file exists. -/
lemma regenerates_false_iff (md5 : String → String) (imageDir : String)
    (hashes : List (String × String)) (files : List String) (ex : Example) :
    regenerates md5 imageDir hashes files ex = false ↔
      (hashesGet hashes (ex.name ++ ".png") = md5 ex.code ∧
        imagePath imageDir ex.name ∈ files) := by
  simp [regenerates, List.elem_iff]

/-! ## Event-log monotonicity along the loop -/

lemma mem_events_processExample (md5 : String → String) (imageDir : String)
    (mk : Bool) (st : SaveState) (ex : Example) {e : Event}
    (he : e ∈ st.events) :
    e ∈ (processExample md5 imageDir mk st ex).events := by
  rw [processExample_events]
  simp [he]

lemma mem_events_foldl (md5 : String → String) (imageDir : String)
    (mk : Bool) {e : Event} :
    ∀ (exs : List Example) (st : SaveState), e ∈ st.events →
      e ∈ (exs.foldl (processExample md5 imageDir mk) st).events
  | [], _, he => he
  | x :: xs, st, he =>
      mem_events_foldl md5 imageDir mk xs
        (processExample md5 imageDir mk st x)
        (mem_events_processExample md5 imageDir mk st x he)

/-! ## Counting hash-file reads and writes -/

/-- Number of `writeHashFile` events (dumps of `_image_hashes.json`). -/
def countHashWrites : List Event → Nat
  | [] => 0
  | Event.writeHashFile _ :: es => countHashWrites es + 1
  | Event.readHashFile _ :: es => countHashWrites es
  | Event.printUsingCached _ :: es => countHashWrites es
  | Event.printSaving _ :: es => countHashWrites es
  | Event.saveChart _ :: es => countHashWrites es
  | Event.makeThumb _ _ _ :: es => countHashWrites es

/-- Number of `readHashFile` events (loads of `_image_hashes.json`). -/
def countHashReads : List Event → Nat
  | [] => 0
  | Event.readHashFile _ :: es => countHashReads es + 1
  | Event.writeHashFile _ :: es => countHashReads es
  | Event.printUsingCached _ :: es => countHashReads es
  | Event.printSaving _ :: es => countHashReads es
  | Event.saveChart _ :: es => countHashReads es
  | Event.makeThumb _ _ _ :: es => countHashReads es

lemma countHashWrites_append : ∀ l l' : List Event,
    countHashWrites (l ++ l') = countHashWrites l + countHashWrites l'
  | [], l' => by simp [countHashWrites]
  | e :: es, l' => by
      cases e <;> simp [countHashWrites, countHashWrites_append es l'] <;> omega

lemma countHashReads_append : ∀ l l' : List Event,
    countHashReads (l ++ l') = countHashReads l + countHashReads l'
  | [], l' => by simp [countHashReads]
  | e :: es, l' => by
      cases e <;> simp [countHashReads, countHashReads_append es l'] <;> omega

/-- One loop iteration writes the hash file exactly when it regenerates. -/
lemma countHashWrites_processExample (md5 : String → String)
    (imageDir : String) (mk : Bool) (st : SaveState) (ex : Example) :
    countHashWrites (processExample md5 imageDir mk st ex).events =
      countHashWrites st.events +
        (if regenerates md5 imageDir st.hashes st.files ex then 1 else 0) := by
  rw [processExample_events]
  by_cases hr : regenerates md5 imageDir st.hashes st.files ex <;>
    by_cases hmk : mk <;>
      simp [hr, hmk, countHashWrites_append, countHashWrites]

/-- No loop iteration reads the hash file. -/
lemma countHashReads_processExample (md5 : String → String)
    (imageDir : String) (mk : Bool) (st : SaveState) (ex : Example) :
    countHashReads (processExample md5 imageDir mk st ex).events =
      countHashReads st.events := by
  rw [processExample_events]
  by_cases hr : regenerates md5 imageDir st.hashes st.files ex <;>
    by_cases hmk : mk <;>
      simp [hr, hmk, countHashReads_append, countHashReads]

lemma countHashReads_foldl (md5 : String → String) (imageDir : String)
    (mk : Bool) : ∀ (exs : List Example) (st : SaveState),
    countHashReads (exs.foldl (processExample md5 imageDir mk) st).events =
      countHashReads st.events
  | [], _ => rfl
  | x :: xs, st => by
      rw [List.foldl_cons, countHashReads_foldl md5 imageDir mk xs,
        countHashReads_processExample]

/-! ## String facts used for filename disjointness -/

lemma string_append_right_cancel {a b t : String} (h : a ++ t = b ++ t) :
    a = b := by
  have hd : a.data ++ t.data = b.data ++ t.data := by
    have := congrArg String.data h
    simpa [String.data_append] using this
  exact string_eq_of_data_eq (List.append_cancel_right hd)

/-! ## Every example regenerates when its filename is not in the cache -/

/-- If an example's digest is nonempty and the cache holds no hash for its
filename, the loop regenerates it; processing examples with pairwise
distinct names keeps the other filenames absent from the cache. -/
lemma foldl_saveChart_all (md5 : String → String) (imageDir : String)
    (mk : Bool) : ∀ (exs : List Example) (st : SaveState),
    (∀ ex ∈ exs, md5 ex.code ≠ "") →
    (∀ ex ∈ exs, hashesGet st.hashes (ex.name ++ ".png") = "") →
    List.Pairwise (fun a b : Example => a.name ≠ b.name) exs →
    ∀ ex ∈ exs,
      Event.saveChart (imagePath imageDir ex.name) ∈
        (exs.foldl (processExample md5 imageDir mk) st).events
  | [], _, _, _, _ => by simp
  | x :: xs, st, hmd5, habsent, hpw => by
      have hx : regenerates md5 imageDir st.hashes st.files x = true := by
        have h0 : hashesGet st.hashes (x.name ++ ".png") = "" :=
          habsent x (List.mem_cons_self x xs)
        have hne : md5 x.code ≠ "" := hmd5 x (List.mem_cons_self x xs)
        simp [regenerates, h0]
        exact Or.inl (fun hc => hne hc.symm)
      have hmem : Event.saveChart (imagePath imageDir x.name) ∈
          (processExample md5 imageDir mk st x).events := by
        rw [processExample_events]
        simp [hx]
      have hpw' := (List.pairwise_cons.mp hpw)
      intro ex hex
      rcases List.mem_cons.mp hex with rfl | hex'
      · exact mem_events_foldl md5 imageDir mk xs _ hmem
      · refine foldl_saveChart_all md5 imageDir mk xs
          (processExample md5 imageDir mk st x)
          (fun e he => hmd5 e (List.mem_cons_of_mem x he))
          (fun e he => ?_) hpw'.2 ex hex'
        have hne : e.name ++ ".png" ≠ x.name ++ ".png" := by
          intro hcontra
          exact hpw'.1 e he (string_append_right_cancel hcontra).symm
        rw [processExample_hashes]
        by_cases hr : regenerates md5 imageDir st.hashes st.files x
        · simp only [hr, if_true]
          rw [hashesGet_set_ne st.hashes (md5 x.code) hne]
          exact habsent e (List.mem_cons_of_mem x he)
        · simp only [hr, if_false]
          exact habsent e (List.mem_cons_of_mem x he)

/-! ## Every example gets a thumbnail when requested -/

lemma foldl_makeThumb_all (md5 : String → String) (imageDir : String) :
    ∀ (exs : List Example) (st : SaveState), ∀ ex ∈ exs,
      Event.makeThumb (imagePath imageDir ex.name)
          (thumbPath imageDir ex.name) ex.galleryParameters ∈
        (exs.foldl (processExample md5 imageDir true) st).events
  | [], _ => by simp
  | x :: xs, st => by
      intro ex hex
      rcases List.mem_cons.mp hex with rfl | hex'
      · refine mem_events_foldl md5 imageDir true xs _ ?_
        rw [processExample_events]
        simp
      · exact foldl_makeThumb_all md5 imageDir xs _ ex hex'

/-! ## Indexing `prev_this_next` -/

lemma getElem?_zip_eq {α β : Type} :
    ∀ (l₁ : List α) (l₂ : List β) (i : Nat),
    (l₁.zip l₂)[i]? =
      match l₁[i]?, l₂[i]? with
      | some a, some b => some (a, b)
      | _, _ => none
  | [], l₂, i => by simp
  | a :: as, [], i => by
      cases h : (a :: as)[i]? <;> simp [h]
  | a :: as, b :: bs, 0 => by simp
  | a :: as, b :: bs, i + 1 => by
      simp only [List.zip_cons_cons, List.getElem?_cons_succ]
      exact getElem?_zip_eq as bs i

lemma getElem?_map_some_append_none {α : Type} :
    ∀ (t : List α) (i : Nat),
    (t.map some ++ [(none : Option α)])[i]? =
      if i ≤ t.length then some t[i]? else none
  | [], 0 => by simp
  | [], i + 1 => by simp
  | x :: t, 0 => by simp
  | x :: t, i + 1 => by
      simp only [List.map_cons, List.cons_append, List.getElem?_cons_succ]
      rw [getElem?_map_some_append_none t i]
      simp [Nat.succ_le_succ_iff]

lemma getElem?_tail_eq {α : Type} (xs : List α) (i : Nat) :
    xs.tail[i]? = xs[i + 1]? := by
  cases xs with
  | nil => simp
  | cons x t => simp

lemma prev_this_next_getElem? {α : Type} (xs : List α) (i : Nat) :
    (prev_this_next xs)[i]? =
      (xs[i]?).map (fun x =>
        (if i = 0 then none else xs[i - 1]?, x, xs[i + 1]?)) := by
  unfold prev_this_next
  rw [getElem?_zip_eq, getElem?_zip_eq]
  rcases hx : xs[i]? with _ | x
  · cases hA : ((none : Option α) :: xs.map some)[i]? <;> simp [hx, hA]
  · have hi : i < xs.length := by
      by_contra hcon
      rw [List.getElem?_eq_none (Nat.le_of_not_lt hcon)] at hx
      exact Option.noConfusion hx
    have hC : (xs.tail.map some ++ [(none : Option α)])[i]? =
        some xs[i + 1]? := by
      rw [getElem?_map_some_append_none, getElem?_tail_eq]
      have h2 : i ≤ xs.tail.length := by
        rw [List.length_tail]; omega
      rw [if_pos h2]
    cases i with
    | zero =>
        simp only [List.getElem?_cons_zero, hC, hx]
        rfl
    | succ j =>
        have hj : j < xs.length := Nat.lt_of_succ_lt hi
        have hA : ((none : Option α) :: xs.map some)[j + 1]? =
            some xs[j]? := by
          rw [List.getElem?_cons_succ, List.getElem?_map]
          rw [List.getElem?_eq_getElem hj]
          rfl
        simp only [hA, hC, hx]
        simp

lemma prev_this_next_length {α : Type} (xs : List α) :
    (prev_this_next xs).length = xs.length := by
  unfold prev_this_next
  cases xs with
  | nil => rfl
  | cons x t =>
      simp [List.length_zip]

lemma assignRefs_length (xs : List Example) :
    (assignRefs xs).length = xs.length := by
  unfold assignRefs
  rw [List.length_map, prev_this_next_length]

lemma assignRefs_getElem? (xs : List Example) (i : Nat) :
    (assignRefs xs)[i]? =
      (xs[i]?).map (fun e =>
        (e,
         if i = 0 then none
         else (xs[i - 1]?).map (fun p => "gallery_" ++ p.name),
         (xs[i + 1]?).map (fun n => "gallery_" ++ n.name))) := by
  unfold assignRefs
  rw [List.getElem?_map, prev_this_next_getElem?]
  cases hx : xs[i]? <;> simp [hx, apply_ite]

/-! ## Grouping lemmas -/

/-- Flattening the groups restores the grouped list, in order. -/
lemma groupAdj_join : ∀ l : List Example,
    ((groupAdj l).map Prod.snd).join = l
  | [] => rfl
  | x :: xs => by
      have ih := groupAdj_join xs
      cases hg : groupAdj xs with
      | nil =>
          rw [hg] at ih
          simp at ih
          simp [groupAdj, hg, ih]
      | cons p rest =>
          rw [hg] at ih
          obtain ⟨c, g⟩ := p
          by_cases hc : x.category = c
          · simp only [groupAdj, hg, hc, if_true]
            simpa using ih
          · simp only [groupAdj, hg, hc, if_false]
            simpa using ih

/-- Every member of a group carries the group's key as its category. -/
lemma groupAdj_mem_category : ∀ (l : List Example)
    (p : String × List Example), p ∈ groupAdj l → ∀ e ∈ p.2,
      e.category = p.1
  | [], _, hp => by simp [groupAdj] at hp
  | x :: xs, p, hp => by
      intro e he
      cases hg : groupAdj xs with
      | nil =>
          rw [groupAdj, hg] at hp
          simp at hp
          subst hp
          simp at he
          subst he
          rfl
      | cons q rest =>
          rw [groupAdj, hg] at hp
          obtain ⟨c, g⟩ := q
          by_cases hc : x.category = c
          · simp only [hc, if_true] at hp
            rcases List.mem_cons.mp hp with rfl | hp'
            · rcases List.mem_cons.mp he with rfl | he'
              · exact hc
              · exact groupAdj_mem_category xs (c, g)
                  (hg ▸ List.mem_cons_self _ _) e he'
            · exact groupAdj_mem_category xs p
                (hg ▸ List.mem_cons_of_mem _ hp') e he
          · simp only [hc, if_false] at hp
            rcases List.mem_cons.mp hp with rfl | hp'
            · simp at he
              subst he
              rfl
            · exact groupAdj_mem_category xs p (hg ▸ hp') e he

/-- No group is empty. -/
lemma groupAdj_snd_ne_nil : ∀ (l : List Example)
    (p : String × List Example), p ∈ groupAdj l → p.2 ≠ []
  | [], _, hp => by simp [groupAdj] at hp
  | x :: xs, p, hp => by
      cases hg : groupAdj xs with
      | nil =>
          rw [groupAdj, hg] at hp
          simp at hp
          subst hp
          simp
      | cons q rest =>
          rw [groupAdj, hg] at hp
          obtain ⟨c, g⟩ := q
          by_cases hc : x.category = c
          · simp only [hc, if_true] at hp
            rcases List.mem_cons.mp hp with rfl | hp'
            · simp
            · exact groupAdj_snd_ne_nil xs p (hg ▸ List.mem_cons_of_mem _ hp')
          · simp only [hc, if_false] at hp
            rcases List.mem_cons.mp hp with rfl | hp'
            · simp
            · exact groupAdj_snd_ne_nil xs p (hg ▸ hp')

/-- The first group's key is the first element's category. -/
lemma groupAdj_head_key (x : Example) (xs : List Example) :
    ((groupAdj (x :: xs)).map Prod.fst).head? = some x.category := by
  cases hg : groupAdj xs with
  | nil => simp [groupAdj, hg]
  | cons q rest =>
      obtain ⟨c, g⟩ := q
      by_cases hc : x.category = c
      · simp [groupAdj, hg, hc]
      · simp [groupAdj, hg, hc]

/-- The defining equation of `groupAdj` on a cons, stated for rewriting
with a known value of `groupAdj xs`. -/
lemma groupAdj_cons_eq (x : Example) (xs : List Example) :
    groupAdj (x :: xs) =
      match groupAdj xs with
      | [] => [(x.category, [x])]
      | (c, g) :: rest =>
          if x.category = c then (c, x :: g) :: rest
          else (x.category, [x]) :: (c, g) :: rest := rfl

/-- Members of groups are members of the grouped list. -/
lemma mem_of_mem_groupAdj {l : List Example} {p : String × List Example}
    (hp : p ∈ groupAdj l) {e : Example} (he : e ∈ p.2) : e ∈ l := by
  have hj : e ∈ ((groupAdj l).map Prod.snd).join := by
    rw [List.mem_join]
    exact ⟨p.2, List.mem_map_of_mem Prod.snd hp, he⟩
  rwa [groupAdj_join] at hj

/-- Grouping a list sorted by category yields keys in strictly ascending
order. -/
lemma groupAdj_keys_chain : ∀ l : List Example,
    List.Sorted (fun a b : Example => pyLe a.category b.category = true) l →
    List.Chain' (fun a b => pyLt a b = true) ((groupAdj l).map Prod.fst)
  | [] => fun _ => by simp [groupAdj]
  | x :: xs => by
      intro hs
      have hrel := (List.sorted_cons.mp hs).1
      have hstail := (List.sorted_cons.mp hs).2
      have ih := groupAdj_keys_chain xs hstail
      cases hg : groupAdj xs with
      | nil => simp [groupAdj, hg]
      | cons q rest =>
          obtain ⟨c, g⟩ := q
          rw [hg] at ih
          have hq : (c, g) ∈ groupAdj xs := hg ▸ List.mem_cons_self _ _
          have hgne : g ≠ [] := groupAdj_snd_ne_nil xs (c, g) hq
          obtain ⟨y, hy⟩ := List.exists_mem_of_ne_nil g hgne
          have hyc : y.category = c := groupAdj_mem_category xs (c, g) hq y hy
          have hyl : y ∈ xs := mem_of_mem_groupAdj hq hy
          have hxc : pyLe x.category c = true := hyc ▸ hrel y hyl
          rw [groupAdj_cons_eq, hg]
          dsimp only
          by_cases hc : x.category = c
          · rw [if_pos hc]
            simpa using ih
          · rw [if_neg hc]
            simp only [List.map_cons, List.chain'_cons]
            refine ⟨pyLt_of_pyLe_of_ne hxc hc, ?_⟩
            simpa using ih

/-! ## Concrete data for witnesses and counterexamples -/

/-- A stand-in digest function for concrete runs; the claims depend only on
the digest being a function of the code text, never on MD5 internals. -/
def md5c (s : String) : String := "h:" ++ s

def ex1 : Example :=
  { name := "ex1", docstring := "first", category := "General",
    code := "c1", lineno := 1, galleryParameters := [] }

def ex2 : Example :=
  { name := "ex2", docstring := "second", category := "General",
    code := "c2", lineno := 5, galleryParameters := [] }

/-- Same name and code as `ex1`; different docstring, category, line number
and gallery parameters. -/
def ex1b : Example :=
  { name := "ex1", docstring := "other", category := "Other",
    code := "c1", lineno := 99, galleryParameters := [("k", "v")] }

/-- Name-sorted but category-unsorted pair: categories first seen Z then A. -/
def exZ : Example := { ex1 with name := "a", category := "Z" }

def exA : Example := { ex1 with name := "b", category := "A" }

/-- The empty starting state: no cache entries, no files. -/
def st0 : SaveState := { hashes := [], files := [], events := [] }

/-- A state in which `ex1`'s image is cached and valid. -/
def stHit : SaveState :=
  { hashes := [("ex1.png", md5c "c1")], files := ["_images/ex1.png"],
    events := [] }

/-- A source parser whose extracted category is absent, for the C8
witness. -/
def parse0 : String → ParsedSource := fun _ =>
  { docstring := "doc", category := none, code := "c", lineno := 3 }

def raw0 : RawExample :=
  { name := "n", filename := "f", galleryParameters := [] }

/-- The result of the cache-hit run used by the C4 witness. -/
def resHit : SaveState :=
  { hashes := [("ex1.png", md5c "c1")],
    files := ["_images/ex1.png"],
    events := [Event.readHashFile [("ex1.png", md5c "c1")],
               Event.printUsingCached "_images/ex1.png",
               Event.writeHashFile [("ex1.png", md5c "c1")]] }

/-- The result of the empty-cache run used by the C5 witness. -/
def res5 : SaveState :=
  { hashes := [("ex1.png", md5c "c1")],
    files := ["_images/ex1.png", "_images/ex1-thumb.png"],
    events := [Event.printUsingCached "_images/ex1.png",
               Event.printSaving "_images/ex1.png",
               Event.saveChart "_images/ex1.png",
               Event.writeHashFile [("ex1.png", md5c "c1")],
               Event.makeThumb "_images/ex1.png" "_images/ex1-thumb.png" [],
               Event.writeHashFile [("ex1.png", md5c "c1")]] }

/-! ## The claims -/

/-- C1: for every example processed by `save_example_pngs`, regeneration is
skipped exactly when the stored hash for the example's output filename
equals the digest of the example's code and the image file exists on disk;
otherwise the image is regenerated and the cache entry for that filename is
updated to the new hash. -/
theorem claim1_cache_invariant (md5 : String → String) (imageDir : String)
    (mk : Bool) (st : SaveState) (ex : Example) :
    (regenerates md5 imageDir st.hashes st.files ex = false ↔
      (hashesGet st.hashes (ex.name ++ ".png") = md5 ex.code ∧
        imagePath imageDir ex.name ∈ st.files)) ∧
    (regenerates md5 imageDir st.hashes st.files ex = false →
      (processExample md5 imageDir mk st ex).hashes = st.hashes ∧
      Event.saveChart (imagePath imageDir ex.name) ∉
        ((processExample md5 imageDir mk st ex).events.drop
          st.events.length)) ∧
    (regenerates md5 imageDir st.hashes st.files ex = true →
      Event.saveChart (imagePath imageDir ex.name) ∈
        (processExample md5 imageDir mk st ex).events ∧
      hashesGet (processExample md5 imageDir mk st ex).hashes
        (ex.name ++ ".png") = md5 ex.code) := by
  refine ⟨regenerates_false_iff md5 imageDir st.hashes st.files ex, ?_, ?_⟩
  · intro hskip
    constructor
    · rw [processExample_hashes, hskip]
      simp
    · rw [processExample_events, hskip]
      by_cases hmk : mk <;>
        simp [hmk, List.append_assoc, List.drop_left]
  · intro hregen
    constructor
    · rw [processExample_events, hregen]
      by_cases hmk : mk <;> simp [hmk]
    · rw [processExample_hashes, hregen]
      simp [hashesGet_set_self]

theorem claim1_witness :
    regenerates md5c "_images" st0.hashes st0.files ex1 = true ∧
    (Event.saveChart (imagePath "_images" ex1.name) ∈
        (processExample md5c "_images" true st0 ex1).events ∧
      hashesGet (processExample md5c "_images" true st0 ex1).hashes
        (ex1.name ++ ".png") = md5c ex1.code) :=
  ⟨by decide,
   (claim1_cache_invariant md5c "_images" true st0 ex1).2.2 (by decide)⟩

/-- C2: refuted by the code.  Line 108 prints the "using cached" message
unconditionally, before the regeneration check, so the message also appears
for every regenerated example; only the intent (as the spec and the
message's own wording state) restricts it to cache hits.  The first
conjunct shows the print happens on every iteration whatever the cache
state; the rest evaluates the loop at a concrete failing input (empty
cache, so the image is regenerated) where the message is printed anyway. -/
theorem claim2_print_unconditional :
    (∀ (md5 : String → String) (imageDir : String) (mk : Bool)
        (st : SaveState) (ex : Example),
      Event.printUsingCached (imagePath imageDir ex.name) ∈
        (processExample md5 imageDir mk st ex).events) ∧
    (regenerates md5c "_images" st0.hashes st0.files ex1 = true ∧
      Event.printUsingCached (imagePath "_images" ex1.name) ∈
        (processExample md5c "_images" true st0 ex1).events ∧
      Event.saveChart (imagePath "_images" ex1.name) ∈
        (processExample md5c "_images" true st0 ex1).events) := by
  constructor
  · intro md5 imageDir mk st ex
    rw [processExample_events]
    by_cases hr : regenerates md5 imageDir st.hashes st.files ex <;>
      by_cases hmk : mk <;> simp [hr, hmk]
  · exact ⟨by decide, by decide, by decide⟩

/-- C9: on a cache hit (stored hash equal and image file present) the loop
iteration leaves the hash table unchanged and writes neither the image file
nor the hash-cache file. -/
theorem claim9_cache_hit_frame (md5 : String → String) (imageDir : String)
    (mk : Bool) (st : SaveState) (ex : Example)
    (hmatch : hashesGet st.hashes (ex.name ++ ".png") = md5 ex.code)
    (hexists : imagePath imageDir ex.name ∈ st.files) :
    (processExample md5 imageDir mk st ex).hashes = st.hashes ∧
    (∀ p, Event.saveChart p ∉
      (processExample md5 imageDir mk st ex).events.drop st.events.length) ∧
    (∀ h, Event.writeHashFile h ∉
      (processExample md5 imageDir mk st ex).events.drop
        st.events.length) := by
  have hskip : regenerates md5 imageDir st.hashes st.files ex = false :=
    (regenerates_false_iff md5 imageDir st.hashes st.files ex).mpr
      ⟨hmatch, hexists⟩
  refine ⟨?_, ?_, ?_⟩
  · rw [processExample_hashes, hskip]
    simp
  · intro p
    rw [processExample_events, hskip]
    by_cases hmk : mk <;>
      simp [hmk, List.append_assoc, List.drop_left]
  · intro h
    rw [processExample_events, hskip]
    by_cases hmk : mk <;>
      simp [hmk, List.append_assoc, List.drop_left]

theorem claim9_witness :
    hashesGet stHit.hashes (ex1.name ++ ".png") = md5c ex1.code ∧
    imagePath "_images" ex1.name ∈ stHit.files ∧
    ((processExample md5c "_images" true stHit ex1).hashes = stHit.hashes ∧
     (∀ p, Event.saveChart p ∉
       (processExample md5c "_images" true stHit ex1).events.drop
         stHit.events.length) ∧
     (∀ h, Event.writeHashFile h ∉
       (processExample md5c "_images" true stHit ex1).events.drop
         stHit.events.length)) :=
  ⟨by decide, by decide,
   claim9_cache_hit_frame md5c "_images" true stHit ex1 (by decide)
     (by decide)⟩

/-- C10: the regeneration decision is a function of the example's name, its
code text, the hash table, and the set of existing files alone: examples
differing only in docstring, category, line number, or gallery parameters
get identical decisions. -/
theorem claim10_decision_noninterference (md5 : String → String)
    (imageDir : String) (hashes : List (String × String))
    (files : List String) (a b : Example)
    (hname : a.name = b.name) (hcode : a.code = b.code) :
    regenerates md5 imageDir hashes files a =
      regenerates md5 imageDir hashes files b := by
  unfold regenerates
  rw [hname, hcode]

theorem claim10_witness :
    ex1.name = ex1b.name ∧ ex1.code = ex1b.code ∧ ex1 ≠ ex1b ∧
    regenerates md5c "_images" [] [] ex1 =
      regenerates md5c "_images" [] [] ex1b :=
  ⟨rfl, rfl, by decide,
   claim10_decision_noninterference md5c "_images" [] [] ex1 ex1b rfl rfl⟩

/-- C3: refuted as stated — a present-but-unparseable hash-cache file does
not degrade to an empty cache: `json.load` is guarded only by the existence
check on line 96, so a corrupt file raises and the run fails instead of
proceeding. -/
theorem claim3_counterexample :
    save_example_pngs md5c [ex1] "_images" HashFileState.corrupt [] true =
      Except.error "json.decoder.JSONDecodeError" := rfl

/-- C3 (amended): a missing hash-cache file degrades to an empty cache and
the run proceeds — with nonempty digests and pairwise distinct example
names, every example's image is regenerated — while a present but corrupt
hash-cache file raises an uncaught JSON decode error that aborts the run. -/
theorem claim3_missing_vs_corrupt (md5 : String → String)
    (exs : List Example) (imageDir : String) (initFiles : List String)
    (mk : Bool)
    (hmd5 : ∀ ex ∈ exs, md5 ex.code ≠ "")
    (hnames : List.Pairwise (fun a b : Example => a.name ≠ b.name) exs) :
    loadHashes HashFileState.missing = Except.ok ([], []) ∧
    (∃ st : SaveState,
      save_example_pngs md5 exs imageDir HashFileState.missing initFiles mk =
        Except.ok st ∧
      ∀ ex ∈ exs,
        Event.saveChart (imagePath imageDir ex.name) ∈ st.events) ∧
    save_example_pngs md5 exs imageDir HashFileState.corrupt initFiles mk =
      Except.error "json.decoder.JSONDecodeError" := by
  refine ⟨rfl, ⟨_, rfl, ?_⟩, rfl⟩
  intro ex hex
  have hall := foldl_saveChart_all md5 imageDir mk exs
    { hashes := [], files := initFiles, events := [] } hmd5
    (fun e _ => rfl) hnames ex hex
  exact List.mem_append_left _ hall

theorem claim3_witness :
    (∀ ex ∈ [ex1], md5c ex.code ≠ "") ∧
    List.Pairwise (fun a b : Example => a.name ≠ b.name) [ex1] ∧
    (loadHashes HashFileState.missing = Except.ok ([], []) ∧
     (∃ st : SaveState,
       save_example_pngs md5c [ex1] "_images" HashFileState.missing [] true =
         Except.ok st ∧
       ∀ ex ∈ [ex1],
         Event.saveChart (imagePath "_images" ex.name) ∈ st.events) ∧
     save_example_pngs md5c [ex1] "_images" HashFileState.corrupt [] true =
       Except.error "json.decoder.JSONDecodeError") :=
  ⟨by decide, by decide,
   claim3_missing_vs_corrupt md5c [ex1] "_images" [] true (by decide)
     (by decide)⟩

/-- C4: refuted as stated — on a run whose single example is a cache hit,
the hash-cache file is written exactly once (the final dump), not once per
example plus once at the end: the per-example write (lines 119–120) sits
inside the regeneration branch. -/
theorem claim4_counterexample :
    (save_example_pngs md5c [ex1] "_images"
        (HashFileState.valid [("ex1.png", md5c "c1")])
        ["_images/ex1.png"] false).map
      (fun st => countHashWrites st.events) = Except.ok 1 ∧
    (1 : Nat) ≠ [ex1].length + 1 :=
  ⟨rfl, by decide⟩

/-- C4 (amended): the hash-cache file is read at most once, at the start
(exactly once when it exists, never during the loop), is rewritten during
the loop exactly once per example whose image is regenerated, and is
written once more at the end of the run. -/
theorem claim4_hash_file_io (md5 : String → String) (exs : List Example)
    (imageDir : String) (initFiles : List String) (mk : Bool)
    (st : SaveState) (ex : Example) (h0 : List (String × String)) :
    (countHashWrites (processExample md5 imageDir mk st ex).events =
      countHashWrites st.events +
        (if regenerates md5 imageDir st.hashes st.files ex then 1 else 0)) ∧
    (countHashReads (processExample md5 imageDir mk st ex).events =
      countHashReads st.events) ∧
    (∀ res : SaveState,
      save_example_pngs md5 exs imageDir (HashFileState.valid h0)
          initFiles mk = Except.ok res →
      countHashReads res.events = 1 ∧
      res.events.getLast? = some (Event.writeHashFile res.hashes)) ∧
    (∀ res : SaveState,
      save_example_pngs md5 exs imageDir HashFileState.missing
          initFiles mk = Except.ok res →
      countHashReads res.events = 0 ∧
      res.events.getLast? = some (Event.writeHashFile res.hashes)) := by
  refine ⟨countHashWrites_processExample md5 imageDir mk st ex,
    countHashReads_processExample md5 imageDir mk st ex, ?_, ?_⟩
  · intro res h
    simp only [save_example_pngs, loadHashes, Except.ok.injEq] at h
    subst h
    constructor
    · rw [countHashReads_append, countHashReads_foldl]
      simp [countHashReads]
    · exact List.getLast?_concat _
  · intro res h
    simp only [save_example_pngs, loadHashes, Except.ok.injEq] at h
    subst h
    constructor
    · rw [countHashReads_append, countHashReads_foldl]
      simp [countHashReads]
    · exact List.getLast?_concat _

theorem claim4_witness :
    (countHashWrites
        (processExample md5c "_images" false stHit ex1).events =
      countHashWrites stHit.events +
        (if regenerates md5c "_images" stHit.hashes stHit.files ex1
         then 1 else 0)) ∧
    (save_example_pngs md5c [ex1] "_images"
        (HashFileState.valid [("ex1.png", md5c "c1")])
        ["_images/ex1.png"] false = Except.ok resHit) ∧
    countHashReads resHit.events = 1 ∧
    resHit.events.getLast? = some (Event.writeHashFile resHit.hashes) :=
  ⟨(claim4_hash_file_io md5c [ex1] "_images" ["_images/ex1.png"] false
      stHit ex1 [("ex1.png", md5c "c1")]).1,
   rfl,
   (claim4_hash_file_io md5c [ex1] "_images" ["_images/ex1.png"] false
      stHit ex1 [("ex1.png", md5c "c1")]).2.2.1 resHit rfl⟩

/-- C5: when thumbnail generation is requested, every example's thumbnail
is (re)created unconditionally — on every loop iteration whatever the
cache state, hence for every example of a successful run. -/
theorem claim5_thumbnails_unconditional (md5 : String → String)
    (imageDir : String) (exs : List Example) (hashFile : HashFileState)
    (initFiles : List String) :
    (∀ (st : SaveState) (ex : Example),
      Event.makeThumb (imagePath imageDir ex.name)
          (thumbPath imageDir ex.name) ex.galleryParameters ∈
        (processExample md5 imageDir true st ex).events) ∧
    (∀ res : SaveState,
      save_example_pngs md5 exs imageDir hashFile initFiles true =
        Except.ok res →
      ∀ ex ∈ exs,
        Event.makeThumb (imagePath imageDir ex.name)
            (thumbPath imageDir ex.name) ex.galleryParameters ∈
          res.events) := by
  constructor
  · intro st ex
    rw [processExample_events]
    by_cases hr : regenerates md5 imageDir st.hashes st.files ex <;>
      simp [hr]
  · intro res h ex hex
    cases hashFile with
    | corrupt => simp [save_example_pngs, loadHashes] at h
    | missing =>
        simp only [save_example_pngs, loadHashes, Except.ok.injEq] at h
        subst h
        exact List.mem_append_left _
          (foldl_makeThumb_all md5 imageDir exs _ ex hex)
    | valid h0 =>
        simp only [save_example_pngs, loadHashes, Except.ok.injEq] at h
        subst h
        exact List.mem_append_left _
          (foldl_makeThumb_all md5 imageDir exs _ ex hex)

theorem claim5_witness :
    save_example_pngs md5c [ex1] "_images" HashFileState.missing [] true =
      Except.ok res5 ∧
    Event.makeThumb (imagePath "_images" ex1.name)
        (thumbPath "_images" ex1.name) ex1.galleryParameters ∈
      res5.events :=
  ⟨rfl,
   (claim5_thumbnails_unconditional md5c "_images" [ex1]
      HashFileState.missing []).2 res5 rfl ex1 (by decide)⟩

/-- C6: for a non-empty name-sorted sequence, the per-example pages get
previous/next references from the neighbouring entries of the sequence:
entry `i` points back to entry `i-1` (no reference for the first entry)
and forward to entry `i+1` (no reference for the last). -/
theorem claim6_prev_next_refs (xs : List Example) (hne : xs ≠ [])
    (hs : List.Sorted (fun a b : Example => pyLe a.name b.name = true) xs) :
    (assignRefs xs).length = xs.length ∧
    (∀ i : Nat, (assignRefs xs)[i]? =
      (xs[i]?).map (fun e =>
        (e,
         if i = 0 then none
         else (xs[i - 1]?).map (fun p => "gallery_" ++ p.name),
         (xs[i + 1]?).map (fun n => "gallery_" ++ n.name)))) ∧
    ((assignRefs xs).head?.map (fun t => t.2.1) = some none) ∧
    ((assignRefs xs).getLast?.map (fun t => t.2.2) = some none) := by
  have hlen := assignRefs_length xs
  refine ⟨hlen, fun i => assignRefs_getElem? xs i, ?_, ?_⟩
  · rw [List.head?_eq_getElem?, assignRefs_getElem?]
    obtain ⟨x, t, rfl⟩ := List.exists_cons_of_ne_nil hne
    simp
  · rw [List.getLast?_eq_getElem?, hlen, assignRefs_getElem?]
    have hpos : 0 < xs.length := List.length_pos.mpr hne
    have hidx : xs.length - 1 < xs.length := by omega
    rw [List.getElem?_eq_getElem hidx]
    have hnone : xs[xs.length - 1 + 1]? = none := by
      apply List.getElem?_eq_none
      omega
    simp [hnone]

theorem claim6_witness :
    ([exZ, exA] : List Example) ≠ [] ∧
    List.Sorted (fun a b : Example => pyLe a.name b.name = true)
      [exZ, exA] ∧
    ((assignRefs [exZ, exA]).length = ([exZ, exA] : List Example).length ∧
     (∀ i : Nat, (assignRefs [exZ, exA])[i]? =
       (([exZ, exA] : List Example)[i]?).map (fun e =>
         (e,
          if i = 0 then none
          else (([exZ, exA] : List Example)[i - 1]?).map
            (fun p => "gallery_" ++ p.name),
          (([exZ, exA] : List Example)[i + 1]?).map
            (fun n => "gallery_" ++ n.name)))) ∧
     ((assignRefs [exZ, exA]).head?.map (fun t => t.2.1) = some none) ∧
     ((assignRefs [exZ, exA]).getLast?.map (fun t => t.2.2) = some none)) :=
  ⟨by decide, by decide,
   claim6_prev_next_refs [exZ, exA] (by decide) (by decide)⟩

/-- C7: refuted as stated — Jinja's `groupby` filter sorts the sequence by
the attribute before grouping, so the gallery index lists categories in
sorted order, not first-seen order: with name-sorted examples whose
categories are first seen as Z then A, the index shows A before Z. -/
theorem claim7_counterexample :
    (jinja_groupby [exZ, exA]).map Prod.fst = ["A", "Z"] ∧
    firstSeenCategories [exZ, exA] = ["Z", "A"] ∧
    (jinja_groupby [exZ, exA]).map Prod.fst ≠
      firstSeenCategories [exZ, exA] :=
  ⟨by decide, by decide, by decide⟩

/-- C7 (amended): the gallery index groups examples by category via Jinja's
`groupby`, which sorts by the attribute: the category headings appear in
strictly ascending code-point order of the category names — each category
exactly once, and exactly the categories occurring among the examples —
rather than in first-seen order. -/
theorem claim7_groupby_sorted (xs : List Example) :
    List.Chain' (fun a b => pyLt a b = true)
      ((jinja_groupby xs).map Prod.fst) ∧
    (∀ c : String, c ∈ (jinja_groupby xs).map Prod.fst ↔
      c ∈ xs.map Example.category) := by
  constructor
  · exact groupAdj_keys_chain _ (List.sorted_insertionSort _ xs)
  · intro c
    constructor
    · intro hc
      obtain ⟨p, hp, rfl⟩ := List.mem_map.mp hc
      have hne := groupAdj_snd_ne_nil _ p hp
      obtain ⟨e, he⟩ := List.exists_mem_of_ne_nil p.2 hne
      have hcat := groupAdj_mem_category _ p hp e he
      have hmem : e ∈ List.insertionSort
          (fun a b : Example => pyLe a.category b.category = true) xs :=
        mem_of_mem_groupAdj hp he
      have hx : e ∈ xs := (List.perm_insertionSort _ xs).mem_iff.mp hmem
      rw [← hcat]
      exact List.mem_map_of_mem _ hx
    · intro hc
      obtain ⟨e, he, rfl⟩ := List.mem_map.mp hc
      have hmem : e ∈ List.insertionSort
          (fun a b : Example => pyLe a.category b.category = true) xs :=
        (List.perm_insertionSort _ xs).mem_iff.mpr he
      have hj : e ∈ ((groupAdj (List.insertionSort
          (fun a b : Example => pyLe a.category b.category = true) xs)).map
            Prod.snd).join := by
        rw [groupAdj_join]
        exact hmem
      rw [List.mem_join] at hj
      obtain ⟨g, hg, heg⟩ := hj
      obtain ⟨p, hp, rfl⟩ := List.mem_map.mp hg
      have hcat := groupAdj_mem_category _ p hp e heg
      rw [hcat]
      exact List.mem_map_of_mem _ hp

/-- C8: an absent (None) category defaults to `'general'` and is
title-cased to "General"; grouping by resolved category partitions the
examples: the concatenation of the groups is a permutation of the example
list and every example sits in the group keyed by its own category. -/
theorem claim8_category_default_partition (parse : String → ParsedSource)
    (raw : List RawExample) :
    (∀ r : RawExample, (parse r.filename).category = none →
      (mkExample parse r).category = "General") ∧
    (((jinja_groupby (populate_examples parse raw)).map Prod.snd).join.Perm
      (populate_examples parse raw)) ∧
    (∀ p ∈ jinja_groupby (populate_examples parse raw), ∀ e ∈ p.2,
      e.category = p.1) := by
  refine ⟨?_, ?_, ?_⟩
  · intro r h
    simp [mkExample, h]
    decide
  · unfold jinja_groupby
    rw [groupAdj_join]
    exact List.perm_insertionSort _ _
  · intro p hp e he
    exact groupAdj_mem_category _ p hp e he

theorem claim8_witness :
    (parse0 raw0.filename).category = none ∧
    (mkExample parse0 raw0).category = "General" :=
  ⟨rfl, (claim8_category_default_partition parse0 [raw0]).1 raw0 rfl⟩

end AltairGallery
